import Mathlib

/-!
# Verification of the chunked audio-transcription orchestration pipeline

Shallow embedding of `src/services/transcription-service.ts` (OpenAI Whisper
variant, and the nodejs-whisper variant appended in the same file) and
`src/utils/file-utils.ts`.  Byte sizes and durations are modelled as exact
rationals (the source computes with JS doubles); `Math.floor` / `Math.ceil`
become `Int.floor` / `Int.ceil`; fallible operations return `Except`/`Option`;
the outcome of every external effect (ffprobe, ffmpeg, the remote endpoint,
`unlink`) is supplied as explicit input data.
-/

/-! ## Chunk Planner (transcription-service.ts lines 464-484) -/

/-- OpenAI Whisper API file size limit: 25MB (line 11 of the source). -/
def MAX_FILE_SIZE_BYTES : ℚ := 25 * 1024 * 1024

/-- `safeChunkSizeBytes = MAX_FILE_SIZE_BYTES * 0.8` (line 466).
The double product `26214400 * 0.8` rounds to exactly `20971520`, so the
rational value coincides with the JS value. -/
def safeChunkSizeBytes : ℚ := MAX_FILE_SIZE_BYTES * (8 / 10)

/-- `bytesPerSecond = fileSizeBytes / duration` (line 467). -/
def bytesPerSecond (S D : ℚ) : ℚ := S / D

/-- `chunkDuration = Math.floor(safeChunkSizeBytes / bytesPerSecond)` (line 468). -/
def chunkDuration (S D : ℚ) : ℤ := ⌊safeChunkSizeBytes / bytesPerSecond S D⌋

/-- `optimizedWavMultiplier = 6` (line 473): configuration constant for the
byte-size growth of optimized WAV relative to the compressed original. -/
def optimizedWavMultiplier : ℚ := 6

/-- `optimizedChunkDuration = Math.floor(chunkDuration / optimizedWavMultiplier)` (line 474). -/
def optimizedChunkDuration (S D : ℚ) : ℤ :=
  ⌊(chunkDuration S D : ℚ) / optimizedWavMultiplier⌋

/-- `actualChunkDuration = Math.max(60, Math.min(optimizedChunkDuration, 300))` (line 480). -/
def actualChunkDuration (S D : ℚ) : ℤ :=
  max 60 (min (optimizedChunkDuration S D) 300)

/-- `numChunks = Math.ceil(duration / actualChunkDuration)` (line 484). -/
def numChunks (S D : ℚ) : ℤ := ⌈D / (actualChunkDuration S D : ℚ)⌉

/-- Claim-side formula, written exactly as the claim words it:
`chunkSeconds = clamp(floor(floor((C * 0.8) / (S / D)) / 6), 60, 300)`
with ceiling `C = 25*1024*1024`. -/
def chunkSecondsSpec (S D : ℚ) : ℤ :=
  max 60 (min ⌊(((⌊((25 * 1024 * 1024 : ℚ) * (8 / 10)) / (S / D)⌋ : ℤ) : ℚ) / 6)⌋ 300)

/-! ## Chunk plan geometry (lines 494-505)

Chunk `i` is cut with `ffmpeg -ss startTime -t actualChunkDuration` where
`startTime = i * actualChunkDuration` (lines 497 and 503). -/

/-- `startTime = i * actualChunkDuration` (line 497). -/
def chunkStart (S D : ℚ) (i : ℕ) : ℚ := (i : ℚ) * (actualChunkDuration S D : ℚ)

/-- The span requested for every chunk (`-t actualChunkDuration`, line 503). -/
def chunkSpan (S D : ℚ) : ℚ := (actualChunkDuration S D : ℚ)

/-- The half-open time interval `[start, start+span)` covered by chunk `i`. -/
def chunkInterval (S D : ℚ) (i : ℕ) : Set ℚ :=
  Set.Ico (chunkStart S D i) (chunkStart S D i + chunkSpan S D)

theorem actualChunkDuration_lower (S D : ℚ) : 60 ≤ actualChunkDuration S D :=
  le_max_left _ _

theorem actualChunkDuration_upper (S D : ℚ) : actualChunkDuration S D ≤ 300 :=
  max_le (by norm_num) (min_le_right _ _)

theorem actualChunkDuration_pos_q (S D : ℚ) : (0 : ℚ) < (actualChunkDuration S D : ℚ) := by
  have h := actualChunkDuration_lower S D
  have : (60 : ℚ) ≤ (actualChunkDuration S D : ℚ) := by exact_mod_cast h
  linarith

theorem numChunks_pos (S D : ℚ) (hD : 0 < D) : 1 ≤ numChunks S D := by
  have hc := actualChunkDuration_pos_q S D
  have hdiv : 0 < D / (actualChunkDuration S D : ℚ) := div_pos hD hc
  have h := Int.ceil_pos.mpr hdiv
  unfold numChunks
  omega

theorem le_numChunks_mul (S D : ℚ) :
    D ≤ (numChunks S D : ℚ) * (actualChunkDuration S D : ℚ) := by
  have hc := actualChunkDuration_pos_q S D
  have h := Int.le_ceil (D / (actualChunkDuration S D : ℚ))
  calc D = D / (actualChunkDuration S D : ℚ) * (actualChunkDuration S D : ℚ) := by
        field_simp
    _ ≤ (numChunks S D : ℚ) * (actualChunkDuration S D : ℚ) := by
        exact mul_le_mul_of_nonneg_right h (le_of_lt hc)

/-- C2: the chunk planner computes
`chunkSeconds = clamp(floor(floor((C * 0.8) / (S / D)) / 6), 60, 300)` with
safe budget 80% of the 25*1024*1024-byte ceiling and conversion-expansion
factor 6; `chunkSeconds` always lies in `[60, 300]` and
`numChunks = ceil(D / chunkSeconds)` is at least 1 (hence finite). -/
theorem chunk_planner_spec (S D : ℚ) (hS : 0 < S) (hD : 0 < D) :
    actualChunkDuration S D = chunkSecondsSpec S D ∧
    60 ≤ actualChunkDuration S D ∧
    actualChunkDuration S D ≤ 300 ∧
    numChunks S D = ⌈D / (actualChunkDuration S D : ℚ)⌉ ∧
    1 ≤ numChunks S D := by
  refine ⟨rfl, actualChunkDuration_lower S D, actualChunkDuration_upper S D, rfl,
    numChunks_pos S D hD⟩

/-- Witness for `chunk_planner_spec` at `S = 100MB`, `D = 3600s`
(the end-to-end scenario of spec section 8). -/
theorem chunk_planner_spec_witness :
    actualChunkDuration (100 * 1024 * 1024) 3600 =
      chunkSecondsSpec (100 * 1024 * 1024) 3600 ∧
    60 ≤ actualChunkDuration (100 * 1024 * 1024) 3600 ∧
    actualChunkDuration (100 * 1024 * 1024) 3600 ≤ 300 ∧
    numChunks (100 * 1024 * 1024) 3600 =
      ⌈(3600 : ℚ) / (actualChunkDuration (100 * 1024 * 1024) 3600 : ℚ)⌉ ∧
    1 ≤ numChunks (100 * 1024 * 1024) 3600 :=
  chunk_planner_spec (100 * 1024 * 1024) 3600 (by norm_num) (by norm_num)

/-- C8: chunk specs are strictly ordered by the contiguous 0-based index:
`start(i+1) = start(i) + span(i)` with `start(i) = i * chunkSeconds` and every
span equal to `chunkSeconds`; distinct chunk intervals are disjoint (zero
overlap); and every point of `[0, D)` lies in the interval of some chunk index
below `numChunks` (zero gap, full cover). -/
theorem chunk_plan_cover (S D : ℚ) (hS : 0 < S) (hD : 0 < D) :
    (∀ i : ℕ, chunkStart S D (i + 1) = chunkStart S D i + chunkSpan S D) ∧
    (∀ i j : ℕ, i ≠ j → Disjoint (chunkInterval S D i) (chunkInterval S D j)) ∧
    (∀ x : ℚ, x ∈ Set.Ico (0 : ℚ) D →
      ∃ i : ℕ, (i : ℤ) < numChunks S D ∧ x ∈ chunkInterval S D i) := by
  have hc : (0 : ℚ) < (actualChunkDuration S D : ℚ) := actualChunkDuration_pos_q S D
  refine ⟨?_, ?_, ?_⟩
  · intro i
    unfold chunkStart chunkSpan
    push_cast
    ring
  · intro i j hij
    have key : ∀ a b : ℕ, a < b →
        Disjoint (chunkInterval S D a) (chunkInterval S D b) := by
      intro a b hab
      unfold chunkInterval chunkStart chunkSpan
      apply Set.Ico_disjoint_Ico.mpr
      have h1 : ((a : ℚ) + 1) ≤ (b : ℚ) := by exact_mod_cast hab
      have h2 : ((a : ℚ) + 1) * (actualChunkDuration S D : ℚ) ≤
          (b : ℚ) * (actualChunkDuration S D : ℚ) :=
        mul_le_mul_of_nonneg_right h1 (le_of_lt hc)
      have hmin : min ((a : ℚ) * (actualChunkDuration S D : ℚ) + (actualChunkDuration S D : ℚ))
          ((b : ℚ) * (actualChunkDuration S D : ℚ) + (actualChunkDuration S D : ℚ)) =
          (a : ℚ) * (actualChunkDuration S D : ℚ) + (actualChunkDuration S D : ℚ) := by
        apply min_eq_left
        nlinarith
      have hmax : max ((a : ℚ) * (actualChunkDuration S D : ℚ))
          ((b : ℚ) * (actualChunkDuration S D : ℚ)) =
          (b : ℚ) * (actualChunkDuration S D : ℚ) := by
        apply max_eq_right
        nlinarith
      rw [hmin, hmax]
      nlinarith
    rcases Nat.lt_or_ge i j with h | h
    · exact key i j h
    · rcases Nat.lt_or_ge j i with h2 | h2
      · exact (key j i h2).symm
      · omega
  · intro x hx
    obtain ⟨hx0, hxD⟩ := hx
    set c : ℚ := (actualChunkDuration S D : ℚ) with hcdef
    have hfl0 : 0 ≤ ⌊x / c⌋ := Int.floor_nonneg.mpr (div_nonneg hx0 (le_of_lt hc))
    refine ⟨(⌊x / c⌋).toNat, ?_, ?_, ?_⟩
    · have hlt : x / c < (numChunks S D : ℚ) := by
        have hDn : D ≤ (numChunks S D : ℚ) * c := le_numChunks_mul S D
        rw [div_lt_iff hc]
        linarith
      have : ⌊x / c⌋ < numChunks S D := by
        have hle : (⌊x / c⌋ : ℚ) ≤ x / c := Int.floor_le _
        have : (⌊x / c⌋ : ℚ) < (numChunks S D : ℚ) := lt_of_le_of_lt hle hlt
        exact_mod_cast this
      omega
    · show chunkStart S D (⌊x / c⌋).toNat ≤ x
      unfold chunkStart
      have hcast : (((⌊x / c⌋).toNat : ℕ) : ℚ) = ((⌊x / c⌋ : ℤ) : ℚ) := by
        exact_mod_cast congrArg (fun z : ℤ => z) (Int.toNat_of_nonneg hfl0)
      rw [hcast, ← hcdef]
      have hle : (⌊x / c⌋ : ℚ) ≤ x / c := Int.floor_le _
      calc (⌊x / c⌋ : ℚ) * c ≤ x / c * c := mul_le_mul_of_nonneg_right hle (le_of_lt hc)
        _ = x := by field_simp
    · show x < chunkStart S D (⌊x / c⌋).toNat + chunkSpan S D
      unfold chunkStart chunkSpan
      have hcast : (((⌊x / c⌋).toNat : ℕ) : ℚ) = ((⌊x / c⌋ : ℤ) : ℚ) := by
        exact_mod_cast congrArg (fun z : ℤ => z) (Int.toNat_of_nonneg hfl0)
      rw [hcast, ← hcdef]
      have hlt : x / c < (⌊x / c⌋ : ℚ) + 1 := Int.lt_floor_add_one _
      have := (div_lt_iff hc).mp hlt
      nlinarith

/-- Witness for `chunk_plan_cover` at `S = 100MB`, `D = 3600s`: the point
`x = 3599` lies in some chunk interval with index below `numChunks`. -/
theorem chunk_plan_cover_witness :
    ∃ i : ℕ, (i : ℤ) < numChunks (100 * 1024 * 1024) 3600 ∧
      (3599 : ℚ) ∈ chunkInterval (100 * 1024 * 1024) 3600 i :=
  (chunk_plan_cover (100 * 1024 * 1024) 3600 (by norm_num) (by norm_num)).2.2
    3599 (by constructor <;> norm_num)

/-! ## Per-chunk transcription (transcribeSingle, lines 571-658) -/

/-- A materialized chunk file together with the outcomes of the external
effects its transcription depends on: its extension, its byte size, the byte
size of its optimized-WAV conversion (used when the extension is not `wav`,
lines 595-599), and the remote transcription outcome for the submitted bytes. -/
structure ChunkFile where
  ext : String
  sizeBytes : ℚ
  convertedSizeBytes : ℚ
  remoteOutcome : Except String String

/-- Byte size of the file actually submitted: the conversion result when the
chunk is not already WAV, otherwise the chunk itself (lines 595-603). -/
def finalSubmitSizeBytes (c : ChunkFile) : ℚ :=
  if c.ext = "wav" then c.sizeBytes else c.convertedSizeBytes

/-- JS `String.prototype.trim`: strip whitespace from both ends (modelled
with the ASCII whitespace set, which covers every string appearing here). -/
def jsTrim (s : String) : String :=
  String.mk (((s.data.dropWhile Char.isWhitespace).reverse.dropWhile
    Char.isWhitespace).reverse)

/-- `transcribeSingle` (lines 571-658): converts a non-WAV chunk to optimized
WAV, throws when the submitted file still exceeds 25MB (lines 606-613), and
otherwise returns the trimmed remote transcript (line 643).  Note: no
hallucination filtering happens on this path. -/
def transcribeSingleRun (c : ChunkFile) : Except String String :=
  if 25 < finalSubmitSizeBytes c / (1024 * 1024) then
    Except.error "Chunk file size still exceeds 25MB limit"
  else
    c.remoteOutcome.map (fun t => jsTrim t)

/-! ## Bounded Batch Executor (lines 512-536)

`maxConcurrent = 2` (line 513): the chunk list is processed in consecutive
batches of two; `Promise.all` rejects the batch as soon as any member fails,
and the rejection propagates out of the loop, so no later batch starts. -/

/-- The batch loop of lines 516-536 with `maxConcurrent = 2`: consume the
ordered outcome list two at a time; any failing member aborts the whole run. -/
def runBatches : List (Except String String) → Except String (List String)
  | [] => Except.ok []
  | [a] => a.map (fun x => [x])
  | a :: b :: rest =>
    match a, b with
    | Except.ok x, Except.ok y => (runBatches rest).map (fun r => x :: y :: r)
    | Except.error e, _ => Except.error e
    | _, Except.error e => Except.error e

/-- `combinedText = results.filter((r) => r.length > 0).join(" ")` (line 542). -/
def combineResults (results : List String) : String :=
  String.intercalate " " (results.filter (fun r => 0 < r.length))

/-! ## Duration probe (getAudioDuration, lines 663-687) -/

/-- `getAudioDuration`: the probe outcome is `some q` when ffprobe succeeds
and its stdout parses as the (finite) number `q`; `none` when the tool fails
or the output does not parse, in which case the source returns `0`
(lines 669-686). -/
def getAudioDuration (probe : Option ℚ) : ℚ := probe.getD 0

/-! ## Chunked pipeline (transcribeInChunks, lines 417-566) -/

/-- Everything one chunked-pipeline run observes from the outside world:
the probe outcome, the source byte size, and the chunk file produced by
segmentation for each chunk index. -/
structure ChunkedEnv where
  probedDuration : Option ℚ
  sizeBytes : ℚ
  chunkAt : ℕ → ChunkFile

/-- Observable outcome of one chunked-pipeline run: the returned transcript
or thrown error, the chunk count of the computed plan (`none` when the run
failed before any plan was computed), and how many times each created chunk
file was passed to `unlink`. -/
structure ChunkedOutcome where
  result : Except String String
  plannedChunks : Option ℤ
  chunkUnlinks : ℕ

/-- `transcribeInChunks` (lines 417-566): validate the probed duration
(lines 440-448) before any plan is computed; plan `numChunks` chunks; run the
batched transcriptions (lines 516-536); on success delete every chunk file
once (line 539, `unlink(file).catch(() => ...)`) and return the combined
text (lines 542-551); any thrown error reaches the catch of line 552, which
only logs and rethrows a wrapped error - the chunk files are not deleted on
that path. -/
def runChunked (env : ChunkedEnv) : ChunkedOutcome :=
  let duration := getAudioDuration env.probedDuration
  if duration ≤ 0 then
    { result := Except.error
        ("Failed to transcribe in chunks: " ++
         "Cannot determine audio duration. The file may be corrupted or in an unsupported format."),
      plannedChunks := none,
      chunkUnlinks := 0 }
  else
    let n := numChunks env.sizeBytes duration
    let outcomes := (List.range n.toNat).map (fun i => transcribeSingleRun (env.chunkAt i))
    match runBatches outcomes with
    | Except.error e =>
      { result := Except.error ("Failed to transcribe in chunks: " ++ e),
        plannedChunks := some n,
        chunkUnlinks := 0 }
    | Except.ok texts =>
      { result := Except.ok (combineResults texts),
        plannedChunks := some n,
        chunkUnlinks := 1 }

/-! ## Batch executor lemmas -/

theorem runBatches_map_ok : ∀ ts : List String,
    runBatches (ts.map Except.ok) = Except.ok ts
  | [] => rfl
  | [a] => rfl
  | a :: b :: rest => by
    simp only [List.map_cons, runBatches, runBatches_map_ok rest, Except.map]

theorem runBatches_cases : ∀ l : List (Except String String),
    (∃ e, runBatches l = Except.error e) ∨
    (∃ ts, runBatches l = Except.ok ts ∧ l = ts.map Except.ok)
  | [] => Or.inr ⟨[], rfl, rfl⟩
  | [a] => by
    cases a with
    | error e => exact Or.inl ⟨e, rfl⟩
    | ok x => exact Or.inr ⟨[x], rfl, rfl⟩
  | a :: b :: rest => by
    cases a with
    | error e => exact Or.inl ⟨e, by cases b <;> rfl⟩
    | ok x =>
      cases b with
      | error e => exact Or.inl ⟨e, rfl⟩
      | ok y =>
        rcases runBatches_cases rest with ⟨e, he⟩ | ⟨ts, hts, hshape⟩
        · exact Or.inl ⟨e, by simp [runBatches, he, Except.map]⟩
        · exact Or.inr ⟨x :: y :: ts, by simp [runBatches, hts, Except.map], by
            simp [hshape]⟩

theorem runBatches_error_of_mem (l : List (Except String String))
    (h : ∃ x ∈ l, ∃ e, x = Except.error e) : ∃ e, runBatches l = Except.error e := by
  rcases runBatches_cases l with he | ⟨ts, hts, hshape⟩
  · exact he
  · exfalso
    obtain ⟨x, hmem, e, hx⟩ := h
    rw [hshape] at hmem
    obtain ⟨t, _, ht⟩ := List.mem_map.mp hmem
    rw [hx] at ht
    exact Except.noConfusion ht

/-! ## Completion-order model for the Bounded Batch Executor

`Promise.all` (lines 530-534) resolves to an array whose slot `i` holds the
result of input promise `i`, whatever order the promises settled in, and the
batch loop pushes those arrays in batch order; so the executor stores each
chunk transcript at its chunk index.  `gather` reads the slots back in index
order from the `(index, transcript)` pairs listed in completion order. -/

/-- Read the per-index result slots, in index order, out of the
`(chunk index, transcript)` pairs listed in the order the underlying
transcription tasks completed. -/
def gather (n : ℕ) (arrivals : List ((_ : ℕ) × String)) : List String :=
  (List.range n).map (fun i => (arrivals.dlookup i).getD "")

/-- The per-chunk transcripts tagged with their chunk index, starting at `k`. -/
def indexedFrom (k : ℕ) : List String → List ((_ : ℕ) × String)
  | [] => []
  | c :: cs => ⟨k, c⟩ :: indexedFrom (k + 1) cs

/-- The per-chunk transcripts tagged with their 0-based chunk index,
in chunk-index order. -/
def indexed (chunks : List String) : List ((_ : ℕ) × String) :=
  indexedFrom 0 chunks

theorem indexedFrom_key_ge : ∀ (cs : List String) (k : ℕ)
    (s : (_ : ℕ) × String), s ∈ indexedFrom k cs → k ≤ s.1
  | [], _, _, h => absurd h (List.not_mem_nil _)
  | c :: cs, k, s, h => by
    rcases List.mem_cons.mp h with h1 | h2
    · rw [h1]
    · exact Nat.le_of_succ_le (indexedFrom_key_ge cs (k + 1) s h2)

theorem indexedFrom_nodupKeys : ∀ (cs : List String) (k : ℕ),
    (indexedFrom k cs).NodupKeys
  | [], _ => List.nodupKeys_nil
  | c :: cs, k => by
    rw [indexedFrom, List.nodupKeys_cons]
    refine ⟨?_, indexedFrom_nodupKeys cs (k + 1)⟩
    intro hmem
    obtain ⟨b, hb⟩ := List.mem_keys.mp hmem
    have h2 : k + 1 ≤ k := indexedFrom_key_ge cs (k + 1) ⟨k, b⟩ hb
    omega

theorem indexedFrom_dlookup : ∀ (cs : List String) (k j : ℕ),
    (indexedFrom k cs).dlookup (k + j) = cs[j]?
  | [], k, j => by simp [indexedFrom]
  | c :: cs, k, 0 => by simp [indexedFrom, List.dlookup_cons_eq]
  | c :: cs, k, j + 1 => by
    rw [indexedFrom, List.dlookup_cons_ne]
    · have h : k + (j + 1) = (k + 1) + j := by omega
      rw [h, indexedFrom_dlookup cs (k + 1) j]
      simp
    · show k + (j + 1) ≠ k
      omega

theorem indexed_dlookup (chunks : List String) (i : ℕ) :
    (indexed chunks).dlookup i = chunks[i]? := by
  have h := indexedFrom_dlookup chunks 0 i
  rw [Nat.zero_add] at h
  exact h

theorem gather_indexed (chunks : List String) :
    gather chunks.length (indexed chunks) = chunks := by
  apply List.ext_getElem
  · simp [gather]
  · intro i h1 h2
    simp only [gather, List.getElem_map, List.getElem_range, indexed_dlookup]
    rw [List.getElem?_eq_getElem h2]
    rfl

theorem string_pos_iff_ne_empty (s : String) : 0 < s.length ↔ s ≠ "" := by
  rw [String.length]
  rw [List.length_pos]
  constructor
  · intro h hc
    apply h
    rw [hc]
  · intro h hc
    apply h
    exact String.ext hc

/-- C1: for every list of per-chunk transcripts, the assembled transcript is
the space-joined concatenation, in chunk-index order, of exactly the
non-empty per-chunk transcripts; and the assembled result is the same for
every completion-time permutation of the `(index, transcript)` task results,
because the executor slots results by chunk index, not completion order. -/
theorem assemble_index_order (chunks : List String)
    (arrivals : List ((_ : ℕ) × String))
    (hperm : arrivals.Perm (indexed chunks)) :
    combineResults (gather chunks.length arrivals) =
      String.intercalate " " (chunks.filter (fun r => r ≠ "")) := by
  have ndr : (indexed chunks).NodupKeys := indexedFrom_nodupKeys chunks 0
  have ndl : arrivals.NodupKeys := (List.perm_nodupKeys hperm).mpr ndr
  have hg : gather chunks.length arrivals = gather chunks.length (indexed chunks) := by
    unfold gather
    apply List.map_congr_left
    intro i _
    rw [List.perm_dlookup i ndl ndr hperm]
  rw [hg, gather_indexed]
  unfold combineResults
  congr 1
  apply List.filter_congr
  intro s _
  rw [decide_eq_decide]
  exact string_pos_iff_ne_empty s

/-- Witness for `assemble_index_order`: three chunk transcripts arriving in
reversed completion order still assemble in chunk-index order, dropping the
empty middle chunk. -/
theorem assemble_index_order_witness :
    combineResults (gather (["hello", "", "world"] : List String).length
      [⟨2, "world"⟩, ⟨1, ""⟩, ⟨0, "hello"⟩]) =
      String.intercalate " " ((["hello", "", "world"] : List String).filter
        (fun r => r ≠ "")) :=
  assemble_index_order ["hello", "", "world"]
    [⟨2, "world"⟩, ⟨1, ""⟩, ⟨0, "hello"⟩] (by decide)

/-! ## Evaluation lemmas for the chunked pipeline -/

theorem runChunked_invalid (env : ChunkedEnv)
    (h : getAudioDuration env.probedDuration ≤ 0) :
    runChunked env =
      { result := Except.error
          ("Failed to transcribe in chunks: " ++
           "Cannot determine audio duration. The file may be corrupted or in an unsupported format."),
        plannedChunks := none,
        chunkUnlinks := 0 } := by
  simp [runChunked, h]

theorem runChunked_err (env : ChunkedEnv)
    (h : ¬ getAudioDuration env.probedDuration ≤ 0) (e : String)
    (hrb : runBatches
        ((List.range (numChunks env.sizeBytes (getAudioDuration env.probedDuration)).toNat).map
          (fun i => transcribeSingleRun (env.chunkAt i))) = Except.error e) :
    runChunked env =
      { result := Except.error ("Failed to transcribe in chunks: " ++ e),
        plannedChunks := some (numChunks env.sizeBytes (getAudioDuration env.probedDuration)),
        chunkUnlinks := 0 } := by
  simp only [runChunked]
  rw [if_neg h, hrb]

theorem runChunked_ok (env : ChunkedEnv)
    (h : ¬ getAudioDuration env.probedDuration ≤ 0) (ts : List String)
    (hrb : runBatches
        ((List.range (numChunks env.sizeBytes (getAudioDuration env.probedDuration)).toNat).map
          (fun i => transcribeSingleRun (env.chunkAt i))) = Except.ok ts) :
    runChunked env =
      { result := Except.ok (combineResults ts),
        plannedChunks := some (numChunks env.sizeBytes (getAudioDuration env.probedDuration)),
        chunkUnlinks := 1 } := by
  simp only [runChunked]
  rw [if_neg h, hrb]

theorem runBatches_ok_of_forall : ∀ l : List (Except String String),
    (∀ x ∈ l, ∃ t, x = Except.ok t) → ∃ ts, runBatches l = Except.ok ts
  | [], _ => ⟨[], rfl⟩
  | [a], h => by
    obtain ⟨t, ht⟩ := h a (List.mem_singleton_self a)
    exact ⟨[t], by rw [ht]; rfl⟩
  | a :: b :: rest, h => by
    obtain ⟨x, hx⟩ := h a (by simp)
    obtain ⟨y, hy⟩ := h b (by simp)
    obtain ⟨ts, hts⟩ := runBatches_ok_of_forall rest (fun z hz => h z (by simp [hz]))
    exact ⟨x :: y :: ts, by rw [hx, hy]; simp [runBatches, hts, Except.map]⟩

/-- C6: when the duration probe fails outright or yields a non-positive
value, the chunked pipeline fails with an error and no chunk plan is ever
computed - a guessed or default duration is never substituted. -/
theorem duration_guard (env : ChunkedEnv)
    (h : env.probedDuration = none ∨ ∃ d, env.probedDuration = some d ∧ d ≤ 0) :
    (∃ e, (runChunked env).result = Except.error e) ∧
    (runChunked env).plannedChunks = none := by
  have hd : getAudioDuration env.probedDuration ≤ 0 := by
    rcases h with h | ⟨d, hd, hd0⟩
    · simp [getAudioDuration, h]
    · rw [hd]
      simpa [getAudioDuration] using hd0
  rw [runChunked_invalid env hd]
  exact ⟨⟨_, rfl⟩, rfl⟩

/-- Witness for `duration_guard`: a failed probe on a 60MB file. -/
theorem duration_guard_witness :
    (∃ e, (runChunked ⟨none, 62914560, fun _ => ⟨"wav", 1000, 0, Except.ok "hi"⟩⟩).result =
      Except.error e) ∧
    (runChunked ⟨none, 62914560, fun _ => ⟨"wav", 1000, 0, Except.ok "hi"⟩⟩).plannedChunks =
      none :=
  duration_guard _ (Or.inl rfl)

/-- C7: every chunked run returns either a single terminal error or the
complete assembly of all per-chunk transcripts in index order (never a
partial result); and if any planned chunk's transcription fails, the whole
request fails with an error, discarding sibling results. -/
theorem chunked_all_or_nothing (env : ChunkedEnv) :
    ((∃ e, (runChunked env).result = Except.error e) ∨
     (∃ texts : List String,
        (runChunked env).result = Except.ok (combineResults texts) ∧
        (List.range
            ((numChunks env.sizeBytes (getAudioDuration env.probedDuration)).toNat)).map
          (fun i => transcribeSingleRun (env.chunkAt i)) = texts.map Except.ok)) ∧
    (∀ i : ℕ,
      i < (numChunks env.sizeBytes (getAudioDuration env.probedDuration)).toNat →
      (∃ e, transcribeSingleRun (env.chunkAt i) = Except.error e) →
      ∃ e, (runChunked env).result = Except.error e) := by
  by_cases hdur : getAudioDuration env.probedDuration ≤ 0
  · rw [runChunked_invalid env hdur]
    exact ⟨Or.inl ⟨_, rfl⟩, fun i _ _ => ⟨_, rfl⟩⟩
  · rcases runBatches_cases
        ((List.range
            ((numChunks env.sizeBytes (getAudioDuration env.probedDuration)).toNat)).map
          (fun i => transcribeSingleRun (env.chunkAt i))) with ⟨e, he⟩ | ⟨ts, hts, hshape⟩
    · rw [runChunked_err env hdur e he]
      exact ⟨Or.inl ⟨_, rfl⟩, fun i _ _ => ⟨_, rfl⟩⟩
    · rw [runChunked_ok env hdur ts hts]
      constructor
      · exact Or.inr ⟨ts, rfl, hshape⟩
      · intro i hi hfail
        exfalso
        obtain ⟨e, hce⟩ := hfail
        have hmem : transcribeSingleRun (env.chunkAt i) ∈
            (List.range
                ((numChunks env.sizeBytes (getAudioDuration env.probedDuration)).toNat)).map
              (fun j => transcribeSingleRun (env.chunkAt j)) :=
          List.mem_map_of_mem _ (List.mem_range.mpr hi)
        rw [hshape] at hmem
        obtain ⟨t, _, ht⟩ := List.mem_map.mp hmem
        rw [hce] at ht
        exact Except.noConfusion ht

/-! ## Temporary-file deletion (line 539 and file-utils.ts lines 27-34) -/

/-- Observable behavior of one deletion attempt: whether an exception escaped
to the caller and whether a failure was logged. -/
structure DeleteAttempt where
  raised : Bool
  logged : Bool

/-- `safeDeleteFile` (file-utils.ts lines 27-34): `unlink` wrapped in
try/catch; any failure (including ENOENT on an already-deleted or nonexistent
file) is caught and logged via console.error, never rethrown.  The argument
tells whether the underlying `unlink` fails. -/
def safeDeleteFile (unlinkFails : Bool) : DeleteAttempt :=
  { raised := false, logged := unlinkFails }

/-- The chunk-file cleanup of transcribeInChunks line 539:
`unlink(file).catch(() => ...)` with an empty handler - a failure is
swallowed silently: not rethrown and not logged. -/
def chunkUnlinkCatch (unlinkFails : Bool) : DeleteAttempt :=
  { raised := false, logged := false }

/-! ## Concrete pipeline environments used by witnesses -/

/-- A successfully probed 60-second, 60MB source planned as one chunk; the
single chunk is a small WAV file and its remote call succeeds. -/
def envOneOk : ChunkedEnv :=
  { probedDuration := some 60, sizeBytes := 62914560,
    chunkAt := fun _ =>
      { ext := "wav", sizeBytes := 1000, convertedSizeBytes := 0,
        remoteOutcome := Except.ok "hello" } }

/-- Same plan as `envOneOk`, but the single chunk's remote call fails. -/
def envOneFail : ChunkedEnv :=
  { probedDuration := some 60, sizeBytes := 62914560,
    chunkAt := fun _ =>
      { ext := "wav", sizeBytes := 1000, convertedSizeBytes := 0,
        remoteOutcome := Except.error "remote call failed" } }

/-- Same plan, but the single chunk converts to a 30MB WAV file. -/
def envOversize : ChunkedEnv :=
  { probedDuration := some 60, sizeBytes := 62914560,
    chunkAt := fun _ =>
      { ext := "mp3", sizeBytes := 1000, convertedSizeBytes := 31457280,
        remoteOutcome := Except.ok "x" } }

theorem numChunks_envOne : numChunks 62914560 60 = 1 := by
  norm_num [numChunks, actualChunkDuration, optimizedChunkDuration, chunkDuration,
    bytesPerSecond, safeChunkSizeBytes, MAX_FILE_SIZE_BYTES, optimizedWavMultiplier]

theorem small_chunk_run (r : Except String String) :
    transcribeSingleRun ⟨"wav", 1000, 0, r⟩ = r.map (fun t => jsTrim t) := by
  unfold transcribeSingleRun
  rw [if_neg]
  norm_num [finalSubmitSizeBytes]

/-- Witness for `chunked_all_or_nothing`: with a single planned chunk whose
remote call fails, the whole run ends in a terminal error. -/
theorem chunked_all_or_nothing_witness :
    ∃ e, (runChunked envOneFail).result = Except.error e :=
  (chunked_all_or_nothing envOneFail).2 0
    (by show 0 < (numChunks 62914560 60).toNat
        rw [numChunks_envOne]
        norm_num)
    ⟨"remote call failed",
      by show transcribeSingleRun ⟨"wav", 1000, 0, Except.error "remote call failed"⟩ = _
         rw [small_chunk_run]
         rfl⟩

/-- C5 counterexample: a run whose single chunk transcription fails takes the
failure exit path of transcribeInChunks, and the chunk files are deleted zero
times there - not exactly once as the claim states for both exit paths (the
catch of line 552 only logs and rethrows; line 539 is never reached). -/
theorem chunk_cleanup_cex :
    (∃ e, (runChunked envOneFail).result = Except.error e) ∧
    (runChunked envOneFail).chunkUnlinks = 0 := by
  have hn : (numChunks envOneFail.sizeBytes (getAudioDuration envOneFail.probedDuration)).toNat
      = 1 := by
    show (numChunks 62914560 60).toNat = 1
    rw [numChunks_envOne]
    rfl
  have hdur : ¬ getAudioDuration envOneFail.probedDuration ≤ 0 := by
    show ¬ (60 : ℚ) ≤ 0
    norm_num
  have hrb : runBatches
      ((List.range
          ((numChunks envOneFail.sizeBytes (getAudioDuration envOneFail.probedDuration)).toNat)).map
        (fun i => transcribeSingleRun (envOneFail.chunkAt i))) =
      Except.error "remote call failed" := by
    rw [hn]
    show runBatches [transcribeSingleRun ⟨"wav", 1000, 0, Except.error "remote call failed"⟩] = _
    rw [small_chunk_run]
    rfl
  rw [runChunked_err envOneFail hdur _ hrb]
  exact ⟨⟨_, rfl⟩, rfl⟩

/-- C5 amended: chunk files are deleted exactly once on the success exit
path, but zero times on the failure exit path; a failed deletion never
raises and never escalates to request failure - `safeDeleteFile` logs the
failure, while the chunk cleanup of line 539 swallows it silently. -/
theorem chunk_cleanup_policy (env : ChunkedEnv) (b : Bool) :
    (safeDeleteFile b).raised = false ∧
    (safeDeleteFile b).logged = b ∧
    (chunkUnlinkCatch b).raised = false ∧
    (¬ getAudioDuration env.probedDuration ≤ 0 →
      (∀ i, i < (numChunks env.sizeBytes (getAudioDuration env.probedDuration)).toNat →
        ∃ t, transcribeSingleRun (env.chunkAt i) = Except.ok t) →
      (runChunked env).chunkUnlinks = 1) ∧
    ((∃ e, (runChunked env).result = Except.error e) →
      (runChunked env).chunkUnlinks = 0) := by
  refine ⟨rfl, rfl, rfl, ?_, ?_⟩
  · intro hdur hall
    have hforall : ∀ x ∈ (List.range
        ((numChunks env.sizeBytes (getAudioDuration env.probedDuration)).toNat)).map
        (fun i => transcribeSingleRun (env.chunkAt i)), ∃ t, x = Except.ok t := by
      intro x hx
      obtain ⟨i, hi, hxi⟩ := List.mem_map.mp hx
      obtain ⟨t, ht⟩ := hall i (List.mem_range.mp hi)
      exact ⟨t, hxi ▸ ht⟩
    obtain ⟨ts, hts⟩ := runBatches_ok_of_forall _ hforall
    rw [runChunked_ok env hdur ts hts]
  · intro hres
    by_cases hdur : getAudioDuration env.probedDuration ≤ 0
    · rw [runChunked_invalid env hdur]
    · rcases runBatches_cases
          ((List.range
              ((numChunks env.sizeBytes (getAudioDuration env.probedDuration)).toNat)).map
            (fun i => transcribeSingleRun (env.chunkAt i))) with ⟨e, he⟩ | ⟨ts, hts, _⟩
      · rw [runChunked_err env hdur e he]
      · exfalso
        rw [runChunked_ok env hdur ts hts] at hres
        obtain ⟨e, he⟩ := hres
        exact Except.noConfusion he

/-- Witness for `chunk_cleanup_policy`: on the all-chunks-succeed path the
chunk files are deleted exactly once, and a failing `safeDeleteFile` neither
raises nor goes unlogged. -/
theorem chunk_cleanup_policy_witness :
    (runChunked envOneOk).chunkUnlinks = 1 ∧
    (safeDeleteFile true).raised = false ∧
    (safeDeleteFile true).logged = true :=
  ⟨(chunk_cleanup_policy envOneOk true).2.2.2.1
      (by show ¬ (60 : ℚ) ≤ 0
          norm_num)
      (fun i _ => ⟨jsTrim "hello",
        by show transcribeSingleRun ⟨"wav", 1000, 0, Except.ok "hello"⟩ = _
           rw [small_chunk_run]
           rfl⟩),
    (chunk_cleanup_policy envOneOk true).1,
    (chunk_cleanup_policy envOneOk true).2.1⟩

/-- C10: a chunk whose submitted file (after WAV conversion when the chunk
is not already WAV) still exceeds the 25MB ceiling makes transcribeSingle
throw an error - and the whole chunked request abort - rather than being
split further; there is no recursive re-chunking of oversized chunks. -/
theorem oversize_chunk_aborts (env : ChunkedEnv) (i : ℕ) (c : ChunkFile) :
    (25 < finalSubmitSizeBytes c / (1024 * 1024) →
      transcribeSingleRun c = Except.error "Chunk file size still exceeds 25MB limit") ∧
    (i < (numChunks env.sizeBytes (getAudioDuration env.probedDuration)).toNat →
      25 < finalSubmitSizeBytes (env.chunkAt i) / (1024 * 1024) →
      ∃ e, (runChunked env).result = Except.error e) := by
  constructor
  · intro h
    unfold transcribeSingleRun
    rw [if_pos h]
  · intro hi hsize
    by_cases hdur : getAudioDuration env.probedDuration ≤ 0
    · rw [runChunked_invalid env hdur]
      exact ⟨_, rfl⟩
    · obtain ⟨e, he⟩ := runBatches_error_of_mem
        ((List.range
            ((numChunks env.sizeBytes (getAudioDuration env.probedDuration)).toNat)).map
          (fun j => transcribeSingleRun (env.chunkAt j)))
        ⟨transcribeSingleRun (env.chunkAt i),
          List.mem_map_of_mem _ (List.mem_range.mpr hi),
          "Chunk file size still exceeds 25MB limit",
          by unfold transcribeSingleRun
             rw [if_pos hsize]⟩
      rw [runChunked_err env hdur e he]
      exact ⟨_, rfl⟩

/-- Witness for `oversize_chunk_aborts`: a chunk whose WAV conversion is 30MB
makes its transcription throw and the run abort. -/
theorem oversize_chunk_aborts_witness :
    transcribeSingleRun (envOversize.chunkAt 0) =
      Except.error "Chunk file size still exceeds 25MB limit" ∧
    ∃ e, (runChunked envOversize).result = Except.error e :=
  ⟨(oversize_chunk_aborts envOversize 0 (envOversize.chunkAt 0)).1
      (by show (25 : ℚ) <
            finalSubmitSizeBytes ⟨"mp3", 1000, 31457280, Except.ok "x"⟩ / (1024 * 1024)
          unfold finalSubmitSizeBytes
          rw [if_neg (by decide)]
          norm_num),
    (oversize_chunk_aborts envOversize 0 (envOversize.chunkAt 0)).2
      (by show 0 < (numChunks 62914560 60).toNat
          rw [numChunks_envOne]
          norm_num)
      (by show (25 : ℚ) <
            finalSubmitSizeBytes ⟨"mp3", 1000, 31457280, Except.ok "x"⟩ / (1024 * 1024)
          unfold finalSubmitSizeBytes
          rw [if_neg (by decide)]
          norm_num)⟩

/-! ## Size/Format Router (transcribe, lines 58-291) -/

/-- Outcome of the attempted direct submission of the original file
(lines 120-162): success with the transcript, a content-specific failure
(message mentioning corrupted/unsupported/file, which falls back to WAV
conversion), or any other failure (rethrown). -/
inductive DirectOutcome
  | ok (text : String)
  | contentError
  | otherError

/-- The data the routing decisions of `transcribe` depend on: the original
byte size, the file extension, the outcome of a direct submission attempt,
and the byte size of the WAV conversion of the whole file. -/
structure RouterInput where
  sizeBytes : ℚ
  ext : String
  directOutcome : DirectOutcome
  convertedSizeBytes : ℚ

/-- Where a `transcribe` call ends up. -/
inductive RouteDecision
  | direct (text : String)
  | chunked (inputPath : String)
  | submitNormalized
  | failed

/-- `supportedFormats` (line 114). -/
def supportedFormats : List String := ["mp3", "m4a", "wav", "webm", "mpeg", "mpga"]

/-- Lines 165-195: convert to WAV when not already WAV, re-check the size of
the file about to be submitted, and fall back to chunking the ORIGINAL file
path when the size still exceeds 25MB (line 189 passes `filePath`, not the
converted file). -/
def normalizeThenSubmit (inp : RouterInput) (filePath : String) : RouteDecision :=
  let finalSize := if inp.ext = "wav" then inp.sizeBytes else inp.convertedSizeBytes
  if 25 < finalSize / (1024 * 1024) then RouteDecision.chunked filePath
  else RouteDecision.submitNormalized

/-- The routing logic of `transcribe` (lines 98-195): a file over 25MB goes
straight to the chunked pipeline (lines 98-110); a file at or under the
ceiling in a supported format is tried directly, falling back to
normalization only on a content-specific failure (lines 114-163); everything
else is normalized and size-rechecked. -/
def route (inp : RouterInput) (filePath : String) : RouteDecision :=
  if 25 < inp.sizeBytes / (1024 * 1024) then RouteDecision.chunked filePath
  else if supportedFormats.contains inp.ext then
    match inp.directOutcome with
    | DirectOutcome.ok t => RouteDecision.direct (jsTrim t)
    | DirectOutcome.otherError => RouteDecision.failed
    | DirectOutcome.contentError => normalizeThenSubmit inp filePath
  else normalizeThenSubmit inp filePath

theorem mb_lt_iff (x : ℚ) : 25 < x / (1024 * 1024) ↔ MAX_FILE_SIZE_BYTES < x := by
  rw [lt_div_iff (by norm_num : (0 : ℚ) < 1024 * 1024)]
  unfold MAX_FILE_SIZE_BYTES
  constructor <;> intro h <;> linarith

/-- C3: a file whose byte size exceeds the 25MB ceiling routes to the chunked
pipeline unconditionally, with no direct-submission attempt; and a file at or
under the ceiling that reaches WAV normalization and whose normalized size
still exceeds the ceiling routes to the chunked pipeline with the ORIGINAL
file path as input, not the normalized file. -/
theorem router_decision_table (inp : RouterInput) (filePath : String) :
    (MAX_FILE_SIZE_BYTES < inp.sizeBytes →
      route inp filePath = RouteDecision.chunked filePath) ∧
    (inp.sizeBytes ≤ MAX_FILE_SIZE_BYTES →
      inp.ext ≠ "wav" →
      (supportedFormats.contains inp.ext = false ∨
        inp.directOutcome = DirectOutcome.contentError) →
      MAX_FILE_SIZE_BYTES < inp.convertedSizeBytes →
      route inp filePath = RouteDecision.chunked filePath) := by
  constructor
  · intro h
    unfold route
    rw [if_pos ((mb_lt_iff inp.sizeBytes).mpr h)]
  · intro hle hwav hreach hconv
    have h1 : ¬ 25 < inp.sizeBytes / (1024 * 1024) := by
      rw [mb_lt_iff]
      exact not_lt.mpr hle
    have hnorm : normalizeThenSubmit inp filePath = RouteDecision.chunked filePath := by
      simp only [normalizeThenSubmit]
      rw [if_neg hwav, if_pos ((mb_lt_iff inp.convertedSizeBytes).mpr hconv)]
    unfold route
    rw [if_neg h1]
    rcases hreach with hunsup | hcontent
    · rw [hunsup, if_neg (by decide)]
      exact hnorm
    · by_cases hsup : supportedFormats.contains inp.ext = true
      · rw [if_pos hsup, hcontent]
        exact hnorm
      · rw [if_neg hsup]
        exact hnorm

/-- Witness for `router_decision_table`: a 30MB mp3 routes to chunking
unconditionally, and a small mp3 with a content failure whose WAV conversion
is 30MB routes to chunking on the original path. -/
theorem router_decision_table_witness :
    route ⟨30 * 1024 * 1024, "mp3", DirectOutcome.ok "t", 0⟩ "a.mp3" =
      RouteDecision.chunked "a.mp3" ∧
    route ⟨1000, "mp3", DirectOutcome.contentError, 30 * 1024 * 1024⟩ "b.mp3" =
      RouteDecision.chunked "b.mp3" :=
  ⟨(router_decision_table ⟨30 * 1024 * 1024, "mp3", DirectOutcome.ok "t", 0⟩ "a.mp3").1
      (by show MAX_FILE_SIZE_BYTES < (30 * 1024 * 1024 : ℚ)
          norm_num [MAX_FILE_SIZE_BYTES]),
    (router_decision_table ⟨1000, "mp3", DirectOutcome.contentError, 30 * 1024 * 1024⟩
        "b.mp3").2
      (by show (1000 : ℚ) ≤ MAX_FILE_SIZE_BYTES
          norm_num [MAX_FILE_SIZE_BYTES])
      (by decide)
      (Or.inr rfl)
      (by show MAX_FILE_SIZE_BYTES < (30 * 1024 * 1024 : ℚ)
          norm_num [MAX_FILE_SIZE_BYTES])⟩

/-! ## Hallucination Filter (nodejs-whisper variant, lines 950-966)

`isLikelyHallucination` runs two JS regex tests: `/(.)\1{30,}/` and
`/(.{1,5})\1{15,}/`.  A JS regex `.` (without the /s flag) matches every
character except the line terminators LF, CR, U+2028 and U+2029;
`regex.test(s)` asks whether a match exists anywhere in the string, so the
embedding quantifies over every start position and every capture length. -/

/-- Whether a JS regex `.` matches the character. -/
def isRegexDot (c : Char) : Bool :=
  !(c == '\n' || c == '\r' || c == ' ' || c == ' ')

/-- `n` consecutive copies of the dot-matching block of length `k` beginning
at position `i` of `l` - the existence semantics of `(block)\1{n-1}`
anchored at `i`. -/
def repeatedBlockAt (l : List Char) (i k n : ℕ) : Bool :=
  (((l.drop i).take k).length == k) &&
  ((l.drop i).take k).all isRegexDot &&
  decide ((l.drop i).take (k * n) = (List.replicate n ((l.drop i).take k)).flatten)

/-- `/(.)\1{30,}/.test(text)` (line 952): some dot-matching character
repeats 31 or more times in a row somewhere in the string. -/
def charRepetitionTest (l : List Char) : Bool :=
  (List.range l.length).any (fun i => repeatedBlockAt l i 1 31)

/-- `/(.{1,5})\1{15,}/.test(text)` (line 959): some block of 1 to 5
dot-matching characters repeats 16 or more times in a row somewhere. -/
def patternRepetitionTest (l : List Char) : Bool :=
  (List.range l.length).any (fun i =>
    (List.range 5).any (fun k => repeatedBlockAt l i (k + 1) 16))

/-- `isLikelyHallucination` (lines 950-966). -/
def isLikelyHallucination (text : String) : Bool :=
  charRepetitionTest text.data || patternRepetitionTest text.data

/-- Claim-side predicate, exactly as the claim words it: some single
character repeats consecutively 31 or more times. -/
def SpecCharRun (l : List Char) : Prop :=
  ∃ c i, (l.drop i).take 31 = List.replicate 31 c

/-- Amended claim-side predicate: some single character that the JS regex
dot matches (i.e. no line terminator) repeats consecutively 31+ times. -/
def SpecCharRunDot (l : List Char) : Prop :=
  ∃ c i, isRegexDot c = true ∧ (l.drop i).take 31 = List.replicate 31 c

/-- Amended claim-side predicate: some substring of length 1 to 5 made of
dot-matching characters repeats consecutively 16 or more times. -/
def SpecBlockRunDot (l : List Char) : Prop :=
  ∃ b i, b ≠ [] ∧ b.length ≤ 5 ∧ b.all isRegexDot = true ∧
    (l.drop i).take (b.length * 16) = (List.replicate 16 b).flatten

theorem flatten_replicate_singleton (n : ℕ) (c : Char) :
    (List.replicate n [c]).flatten = List.replicate n c := by
  induction n with
  | zero => rfl
  | succ m ih => simp [List.replicate_succ, ih]

theorem length_flatten_replicate (n : ℕ) (b : List Char) :
    ((List.replicate n b).flatten).length = n * b.length := by
  induction n with
  | zero => simp
  | succ m ih =>
    simp only [List.replicate_succ, List.flatten_cons, List.length_append, ih]
    ring

theorem repeatedBlockAt_iff (l : List Char) (i k n : ℕ) (hn : 0 < n) :
    repeatedBlockAt l i k n = true ↔
    ∃ b : List Char, b.length = k ∧ b.all isRegexDot = true ∧
      (l.drop i).take (k * n) = (List.replicate n b).flatten := by
  unfold repeatedBlockAt
  simp only [Bool.and_eq_true, beq_iff_eq, decide_eq_true_eq]
  constructor
  · rintro ⟨⟨hlen, hall⟩, heq⟩
    exact ⟨(l.drop i).take k, hlen, hall, heq⟩
  · rintro ⟨b, hblen, hball, heq⟩
    have hbk : (l.drop i).take k = b := by
      have h1 : ((l.drop i).take (k * n)).take k = (l.drop i).take k := by
        rw [List.take_take]
        congr 1
        exact Nat.min_eq_left (Nat.le_mul_of_pos_right k hn)
      have h2 : ((List.replicate n b).flatten).take k = b := by
        cases n with
        | zero => omega
        | succ m =>
          rw [List.replicate_succ, List.flatten_cons]
          exact List.take_left' hblen
      rw [← h1, heq, h2]
    rw [hbk]
    exact ⟨⟨hblen, hball⟩, heq⟩

theorem charRepetitionTest_iff (l : List Char) :
    charRepetitionTest l = true ↔ SpecCharRunDot l := by
  unfold charRepetitionTest SpecCharRunDot
  rw [List.any_eq_true]
  constructor
  · rintro ⟨i, hmem, hrep⟩
    rw [repeatedBlockAt_iff l i 1 31 (by norm_num)] at hrep
    obtain ⟨b, hblen, hball, heq⟩ := hrep
    obtain ⟨c, rfl⟩ := List.length_eq_one.mp hblen
    refine ⟨c, i, ?_, ?_⟩
    · simpa using hball
    · rw [show (1 * 31 : ℕ) = 31 from rfl] at heq
      rw [heq, flatten_replicate_singleton]
  · rintro ⟨c, i, hdot, heq⟩
    have hilen : i < l.length := by
      have hlen := congrArg List.length heq
      simp only [List.length_take, List.length_drop, List.length_replicate] at hlen
      omega
    refine ⟨i, List.mem_range.mpr hilen, ?_⟩
    rw [repeatedBlockAt_iff l i 1 31 (by norm_num)]
    refine ⟨[c], rfl, by simpa using hdot, ?_⟩
    rw [show (1 * 31 : ℕ) = 31 from rfl, flatten_replicate_singleton]
    exact heq

theorem patternRepetitionTest_iff (l : List Char) :
    patternRepetitionTest l = true ↔ SpecBlockRunDot l := by
  unfold patternRepetitionTest SpecBlockRunDot
  rw [List.any_eq_true]
  constructor
  · rintro ⟨i, hmem, hany⟩
    rw [List.any_eq_true] at hany
    obtain ⟨k, hkmem, hrep⟩ := hany
    rw [repeatedBlockAt_iff l i (k + 1) 16 (by norm_num)] at hrep
    obtain ⟨b, hblen, hball, heq⟩ := hrep
    have hk5 : k < 5 := List.mem_range.mp hkmem
    refine ⟨b, i, ?_, by omega, hball, ?_⟩
    · intro hnil
      rw [hnil] at hblen
      simp at hblen
    · rw [hblen]
      exact heq
  · rintro ⟨b, i, hne, hle5, hball, heq⟩
    have hbpos : 0 < b.length := List.length_pos.mpr hne
    have hilen : i < l.length := by
      have hlen := congrArg List.length heq
      simp only [List.length_take, List.length_drop, length_flatten_replicate] at hlen
      omega
    refine ⟨i, List.mem_range.mpr hilen, ?_⟩
    rw [List.any_eq_true]
    refine ⟨b.length - 1, List.mem_range.mpr (by omega), ?_⟩
    rw [repeatedBlockAt_iff l i (b.length - 1 + 1) 16 (by norm_num)]
    have hbl : b.length - 1 + 1 = b.length := by omega
    rw [hbl]
    exact ⟨b, rfl, hball, heq⟩

/-- The transcript of 35 repeated letters used as the hallucinated sample. -/
def hallucinatedText : String := String.mk (List.replicate 35 'a')

theorem hallu_35a : isLikelyHallucination hallucinatedText = true := by decide

/-- C9 counterexample: the string of 35 newline characters repeats a single
character 35 >= 31 times consecutively, so the claim classifies it as
hallucinated; but the JS regex dot matches no line terminator, so
`isLikelyHallucination` returns false on it.  The claimed iff fails. -/
theorem hallucination_claim_cex :
    SpecCharRun (String.mk (List.replicate 35 '\n')).data ∧
    isLikelyHallucination (String.mk (List.replicate 35 '\n')) = false := by
  constructor
  · exact ⟨'\n', 0, by simp [List.take_replicate]⟩
  · decide

/-- C9 amended: the predicate flags a transcript iff some single character
matched by the regex dot (i.e. not a line terminator) repeats consecutively
31+ times, or some substring of 1 to 5 dot-matched characters repeats
consecutively 16+ times; 35 repeated letters are discarded, a 2-character
pattern repeated 18 times is discarded, and an ordinary mixed sentence is
not discarded. -/
theorem hallucination_filter_spec (s : String) :
    (isLikelyHallucination s = true ↔
      SpecCharRunDot s.data ∨ SpecBlockRunDot s.data) ∧
    isLikelyHallucination hallucinatedText = true ∧
    isLikelyHallucination (String.mk ((List.replicate 18 ['a', 'b']).flatten)) = true ∧
    isLikelyHallucination "This is a normal sentence." = false := by
  refine ⟨?_, hallu_35a, by decide, by decide⟩
  unfold isLikelyHallucination
  rw [Bool.or_eq_true, charRepetitionTest_iff, patternRepetitionTest_iff]

/-- Witness for `hallucination_filter_spec`: instantiating the equivalence on
the 35-letter sample shows the claim-side predicate holds there. -/
theorem hallucination_filter_spec_witness :
    SpecCharRunDot hallucinatedText.data ∨ SpecBlockRunDot hallucinatedText.data :=
  ((hallucination_filter_spec hallucinatedText).1).mp
    (hallucination_filter_spec hallucinatedText).2.1

/-! ## Where the Hallucination Filter is applied

In the nodejs-whisper variant, `transcribe` (lines 875-926) runs the filter
on the whole-file transcript after timestamp removal (lines 907-918).  The
chunked pipeline of the OpenAI variant never calls it: `transcribeSingle`
returns the trimmed remote text directly (line 643). -/

/-- The validation and filter stage of the nodejs-whisper `transcribe`
(lines 907-918), applied to the transcript text after timestamp removal:
empty text returns empty, a likely hallucination returns empty, anything
else passes through unchanged. -/
def whisperFilterStage (text : String) : String :=
  if text.length = 0 then ""
  else if isLikelyHallucination text then ""
  else text

/-- One-chunk plan whose remote call returns a hallucinated transcript. -/
def envHallucinated : ChunkedEnv :=
  { probedDuration := some 60, sizeBytes := 62914560,
    chunkAt := fun _ =>
      { ext := "wav", sizeBytes := 1000, convertedSizeBytes := 0,
        remoteOutcome := Except.ok hallucinatedText } }

/-- C4 counterexample: a chunk whose remote transcript is a hallucination
(35 repeated letters) reaches the assembled result of the chunked pipeline
verbatim - had the per-chunk text been passed through the Hallucination
Filter as claimed, its contribution would have been degraded to the empty
string and the assembled transcript would be empty. -/
theorem chunk_filter_cex :
    isLikelyHallucination hallucinatedText = true ∧
    whisperFilterStage hallucinatedText = "" ∧
    (runChunked envHallucinated).result = Except.ok hallucinatedText := by
  refine ⟨hallu_35a, ?_, ?_⟩
  · unfold whisperFilterStage
    rw [if_neg (by decide), if_pos hallu_35a]
  · have hn : (numChunks envHallucinated.sizeBytes
        (getAudioDuration envHallucinated.probedDuration)).toNat = 1 := by
      show (numChunks 62914560 60).toNat = 1
      rw [numChunks_envOne]
      rfl
    have hdur : ¬ getAudioDuration envHallucinated.probedDuration ≤ 0 := by
      show ¬ (60 : ℚ) ≤ 0
      norm_num
    have hrb : runBatches
        ((List.range
            ((numChunks envHallucinated.sizeBytes
              (getAudioDuration envHallucinated.probedDuration)).toNat)).map
          (fun i => transcribeSingleRun (envHallucinated.chunkAt i))) =
        Except.ok [jsTrim hallucinatedText] := by
      rw [hn]
      show runBatches [transcribeSingleRun ⟨"wav", 1000, 0, Except.ok hallucinatedText⟩] = _
      rw [small_chunk_run]
      rfl
    rw [runChunked_ok envHallucinated hdur [jsTrim hallucinatedText] hrb]
    show Except.ok (combineResults [jsTrim hallucinatedText]) = Except.ok hallucinatedText
    congr 1

/-- C4 amended: per-chunk transcripts in the chunked pipeline are NOT passed
through the Hallucination Filter - transcribeSingle returns the trimmed
remote text unconditionally, even for hallucinated text; the filter is
applied only in the nodejs-whisper variant's whole-file transcribe, where it
is a total predicate that never raises and only degrades the transcript to
the empty string. -/
theorem hallucination_filter_application (c : ChunkFile) (t text : String) :
    (¬ 25 < finalSubmitSizeBytes c / (1024 * 1024) →
      c.remoteOutcome = Except.ok t →
      transcribeSingleRun c = Except.ok (jsTrim t)) ∧
    (isLikelyHallucination text = true → whisperFilterStage text = "") ∧
    (whisperFilterStage text = "" ∨ whisperFilterStage text = text) := by
  refine ⟨?_, ?_, ?_⟩
  · intro hsize hok
    unfold transcribeSingleRun
    rw [if_neg hsize, hok]
    rfl
  · intro hh
    unfold whisperFilterStage
    by_cases h0 : text.length = 0
    · rw [if_pos h0]
    · rw [if_neg h0, if_pos hh]
  · unfold whisperFilterStage
    by_cases h0 : text.length = 0
    · left
      rw [if_pos h0]
    · by_cases hh : isLikelyHallucination text = true
      · left
        rw [if_neg h0, if_pos hh]
      · right
        rw [if_neg h0, if_neg hh]

/-- Witness for `hallucination_filter_application`: on the hallucinated
sample, the chunked per-chunk path returns the text unfiltered while the
whisper-variant filter stage degrades it to empty. -/
theorem hallucination_filter_application_witness :
    transcribeSingleRun ⟨"wav", 1000, 0, Except.ok hallucinatedText⟩ =
      Except.ok (jsTrim hallucinatedText) ∧
    whisperFilterStage hallucinatedText = "" :=
  ⟨(hallucination_filter_application ⟨"wav", 1000, 0, Except.ok hallucinatedText⟩
        hallucinatedText hallucinatedText).1
      (by show ¬ (25 : ℚ) <
            finalSubmitSizeBytes ⟨"wav", 1000, 0, Except.ok hallucinatedText⟩ / (1024 * 1024)
          unfold finalSubmitSizeBytes
          rw [if_pos rfl]
          norm_num)
      rfl,
    (hallucination_filter_application ⟨"wav", 1000, 0, Except.ok hallucinatedText⟩
        hallucinatedText hallucinatedText).2.1 hallu_35a⟩
